import Mathlib

/-!
Shallow embedding of the decode-step state-maintenance CUDA kernels in
src/models/kernels.cu of this repository.

Device buffers are modelled as total functions from flat offsets to values.
A kernel launch is modelled as the sequential execution of its data-parallel
threads, each thread contributing at most one store (`execThreads`); for the
kernels below the active threads store to pairwise distinct offsets, so the
sequentialisation order is irrelevant and the model is faithful to the
parallel execution.  Machine integers are modelled as unbounded `Int`
(the kernels only increment and copy; overflow is undefined behaviour in the
source and outside every claim's hypotheses).
-/

namespace Generators.cuda

/-- Execution of threads 0..n-1 of a kernel launch: thread j performs the
single optional store described by `write j`; later threads overwrite
earlier ones, which is irrelevant for the write-disjoint kernels modelled
here. -/
def execThreads {α β : Type} [DecidableEq β] (write : Nat → Option (β × α)) :
    Nat → (β → α) → β → α
  | 0, buf => buf
  | n + 1, buf =>
    match write n with
    | some p => Function.update (execThreads write n buf) p.1 p.2
    | none => execThreads write n buf

/-- Frame lemma: an offset no thread stores to keeps its prior value. -/
theorem execThreads_frame {α β : Type} [DecidableEq β] (write : Nat → Option (β × α))
    (n : Nat) (buf : β → α) (o : β)
    (h : ∀ j, j < n → ∀ p, write j = some p → p.1 ≠ o) :
    execThreads write n buf o = buf o := by
  induction n with
  | zero => rfl
  | succ m ih =>
    have hm : ∀ j, j < m → ∀ p, write j = some p → p.1 ≠ o :=
      fun j hj => h j (Nat.lt_succ_of_lt hj)
    cases hw : write m with
    | none =>
      simp only [execThreads, hw]
      exact ih hm
    | some p =>
      have hne : p.1 ≠ o := h m (Nat.lt_succ_self m) p hw
      simp only [execThreads, hw]
      rw [Function.update_noteq (Ne.symm hne)]
      exact ih hm

/-- Unique-store lemma: if thread k stores v at offset o and no other thread
stores at o, the final buffer holds v at o. -/
theorem execThreads_write {α β : Type} [DecidableEq β] (write : Nat → Option (β × α))
    (n k : Nat) (buf : β → α) (o : β) (v : α)
    (hk : k < n) (hw : write k = some (o, v))
    (huniq : ∀ j, j < n → j ≠ k → ∀ p, write j = some p → p.1 ≠ o) :
    execThreads write n buf o = v := by
  induction n with
  | zero => omega
  | succ m ih =>
    by_cases hkm : k = m
    · subst hkm
      simp only [execThreads, hw]
      rw [Function.update_same]
    · have hk' : k < m := by omega
      have huniq' : ∀ j, j < m → j ≠ k → ∀ p, write j = some p → p.1 ≠ o :=
        fun j hj => huniq j (Nat.lt_succ_of_lt hj)
      cases hw' : write m with
      | none =>
        simp only [execThreads, hw']
        exact ih hk' huniq'
      | some p =>
        have hne : p.1 ≠ o := huniq m (Nat.lt_succ_self m) (fun h => hkm h.symm) p hw'
        simp only [execThreads, hw']
        rw [Function.update_noteq (Ne.symm hne)]
        exact ih hk' huniq'

/-- Constant-store lemma: if every store writes the value v and the offset
already holds v, it still holds v afterwards. -/
theorem execThreads_const {α β : Type} [DecidableEq β] (write : Nat → Option (β × α))
    (n : Nat) (buf : β → α) (o : β) (v : α)
    (hv : ∀ j p, write j = some p → p.2 = v) (hb : buf o = v) :
    execThreads write n buf o = v := by
  induction n with
  | zero => exact hb
  | succ m ih =>
    cases hw : write m with
    | none =>
      simp only [execThreads, hw]
      exact ih
    | some p =>
      simp only [execThreads, hw]
      by_cases ho : p.1 = o
      · subst ho
        rw [Function.update_same]
        exact hv m p hw
      · rw [Function.update_noteq (Ne.symm ho)]
        exact ih

/-- Mixed-radix place-value injectivity: a*B + b with b < B determines a and b. -/
theorem encode_inj {B a b c d : Nat} (hb : b < B) (hd : d < B)
    (h : a * B + b = c * B + d) : a = c ∧ b = d := by
  have hBpos : 0 < B := by omega
  have h1 : (B * a + b) % B = b % B := Nat.mul_add_mod B a b
  have h2 : (B * c + d) % B = d % B := Nat.mul_add_mod B c d
  have hab : B * a + b = B * c + d := by rw [mul_comm B a, mul_comm B c]; omega
  rw [hab] at h1
  have hb' : b % B = b := Nat.mod_eq_of_lt hb
  have hd' : d % B = d := Nat.mod_eq_of_lt hd
  have hbd : b = d := by omega
  refine ⟨?_, hbd⟩
  subst hbd
  have hm : a * B = c * B := by omega
  exact Nat.eq_of_mul_eq_mul_right hBpos hm

/-- Place-value decode, mod part: (x + B*a) % B = x for x < B. -/
theorem decode_mod {B : Nat} (x a : Nat) (hx : x < B) : (x + B * a) % B = x := by
  rw [Nat.add_mul_mod_self_left, Nat.mod_eq_of_lt hx]

/-- Place-value decode, div part: (x + B*a) / B = a for x < B. -/
theorem decode_div {B : Nat} (x a : Nat) (hx : x < B) : (x + B * a) / B = a := by
  have hB : 0 < B := by omega
  rw [Nat.add_mul_div_left x a hB, Nat.div_eq_of_lt hx]
  omega

/-- Mixed-radix bound: x + X*a < X*A for x < X, a < A. -/
theorem mr_lt {x X a A : Nat} (hx : x < X) (ha : a < A) : x + X * a < X * A := by
  calc x + X * a < X + X * a := by omega
    _ = X * (a + 1) := by ring
    _ ≤ X * A := Nat.mul_le_mul_left X ha

/-- Thread count of a 1-D launch with 256-thread blocks over `work` items,
as in the source's `(work + 255) / 256` blocks of 256 threads. -/
def gridThreads256 (work : Nat) : Nat := (work + 255) / 256 * 256

theorem le_gridThreads256 (work : Nat) : work ≤ gridThreads256 work := by
  unfold gridThreads256
  omega

/-- Body of the `UpdatePositionIds` kernel: thread gi increments
positions[gi] when gi < batch_beam_size (one store per thread, reading the
thread's own cell, so the pre-launch value is read). -/
def UpdatePositionIds {T : Type} [Add T] [One T] (positions : Nat → T)
    (batch_beam_size gi : Nat) : Option (Nat × T) :=
  if gi < batch_beam_size then some (gi, positions gi + 1) else none

/-- Launcher `Launch_UpdatePositionIds`: grid of (batch_beam_size+255)/256
blocks of 256 threads. -/
def Launch_UpdatePositionIds {T : Type} [Add T] [One T] (positions : Nat → T)
    (batch_beam_size : Nat) : Nat → T :=
  execThreads (UpdatePositionIds positions batch_beam_size)
    (gridThreads256 batch_beam_size) positions

/-- k successive launches of the position-update kernel. -/
def advancePositions {T : Type} [Add T] [One T] (positions : Nat → T)
    (batch_beam_size : Nat) : Nat → Nat → T
  | 0 => positions
  | k + 1 => Launch_UpdatePositionIds (advancePositions positions batch_beam_size k)
      batch_beam_size

theorem launch_updatePositionIds_cell {T : Type} [Add T] [One T]
    (positions : Nat → T) (n i : Nat) (hi : i < n) :
    Launch_UpdatePositionIds positions n i = positions i + 1 := by
  apply execThreads_write (UpdatePositionIds positions n) (gridThreads256 n) i
  · exact Nat.lt_of_lt_of_le hi (le_gridThreads256 n)
  · simp [UpdatePositionIds, hi]
  · intro j hj hji p hp
    by_cases hjn : j < n
    · simp only [UpdatePositionIds, if_pos hjn, Option.some.injEq] at hp
      rw [← hp]
      exact hji
    · simp [UpdatePositionIds, hjn] at hp

/-- C8: one launch of the position-update kernel adds exactly 1 to every one
of the n position entries, and k successive launches add k elementwise; the
body is type-generic exactly like the source template (which instantiates it
at 32-bit and 64-bit signed integers, both modelled by any type with this
additive structure). -/
theorem updatePositionIds_adds_one {T : Type} [AddMonoidWithOne T]
    (positions : Nat → T) (n i : Nat) (hi : i < n) :
    Launch_UpdatePositionIds positions n i = positions i + 1 ∧
    ∀ k, advancePositions positions n k i = positions i + (k : T) := by
  constructor
  · exact launch_updatePositionIds_cell positions n i hi
  · intro k
    induction k with
    | zero => simp [advancePositions]
    | succ m ih =>
      have hstep := launch_updatePositionIds_cell (advancePositions positions n m) n i hi
      rw [advancePositions, hstep, ih, Nat.cast_add_one, add_assoc]

/-- Witness for C8 at a concrete instance. -/
theorem updatePositionIds_adds_one_witness :
    1 < 3 ∧
      (Launch_UpdatePositionIds (fun v => (0 : Int)) 3 1 = (fun v => (0 : Int)) 1 + 1 ∧
        advancePositions (fun v => (0 : Int)) 3 5 1 = (fun v => (0 : Int)) 1 + ((5 : Nat) : Int)) := by
  refine ⟨by decide, ?_⟩
  have h := updatePositionIds_adds_one (fun v => (0 : Int)) 3 1 (by decide)
  exact ⟨h.1, h.2 5⟩

/-- Body of the `CopyAndUpdateAttentionMask` kernel (grow path): thread gi
covers the (row, column) pair (gi / current_length, gi % current_length);
for rows in range it copies the old row prefix of width current_length-1 and
sets column current_length-1 to 1.  The locals i and j of the source are
written out as gi / current_length and gi % current_length. -/
def CopyAndUpdateAttentionMask (old_mask_data : Nat → Int)
    (batch_beam_size current_length max_length gi : Nat) : Option (Nat × Int) :=
  if gi / current_length < batch_beam_size then
    if gi % current_length < current_length - 1 then
      some (gi / current_length * max_length + gi % current_length,
        old_mask_data (gi / current_length * (current_length - 1) + gi % current_length))
    else
      some (gi / current_length * max_length + gi % current_length, 1)
  else none

/-- Body of the `UpdateAttentionMask` kernel (fast path): block i stores 1 at
mask[i * max_length + current_length]. -/
def UpdateAttentionMask (batch_beam_size current_length max_length i : Nat) :
    Option (Nat × Int) :=
  if i < batch_beam_size then some (i * max_length + current_length, 1) else none

/-- Launcher `Launch_UpdateAttentionMask`: the fast path launches
batch_beam_size blocks of one thread; the grow path launches
(batch_beam_size * max_length + 255)/256 blocks of 256 threads. -/
def Launch_UpdateAttentionMask (mask_data old_mask_data : Nat → Int)
    (batch_beam_size current_length max_length : Nat) (update_only : Bool) : Nat → Int :=
  if update_only then
    execThreads (UpdateAttentionMask batch_beam_size current_length max_length)
      batch_beam_size mask_data
  else
    execThreads
      (CopyAndUpdateAttentionMask old_mask_data batch_beam_size current_length max_length)
      (gridThreads256 (batch_beam_size * max_length)) mask_data

theorem launch_mask_true (mask old_mask : Nat → Int) (bbs cl maxL : Nat) :
    Launch_UpdateAttentionMask mask old_mask bbs cl maxL true =
      execThreads (UpdateAttentionMask bbs cl maxL) bbs mask := rfl

theorem launch_mask_false (mask old_mask : Nat → Int) (bbs cl maxL : Nat) :
    Launch_UpdateAttentionMask mask old_mask bbs cl maxL false =
      execThreads (CopyAndUpdateAttentionMask old_mask bbs cl maxL)
        (gridThreads256 (bbs * maxL)) mask := rfl

/-- Every store of the grow-path kernel targets offset
(gi / cl) * maxL + gi % cl for its own thread index gi. -/
theorem copyMask_store_offset (old_mask : Nat → Int) (bbs cl maxL g : Nat)
    (p : Nat × Int) (hp : CopyAndUpdateAttentionMask old_mask bbs cl maxL g = some p) :
    g / cl < bbs ∧ p.1 = g / cl * maxL + g % cl := by
  unfold CopyAndUpdateAttentionMask at hp
  by_cases hgb : g / cl < bbs
  · refine ⟨hgb, ?_⟩
    rw [if_pos hgb] at hp
    split at hp <;> (simp only [Option.some.injEq] at hp; rw [← hp])
  · rw [if_neg hgb] at hp
    exact Option.noConfusion hp

/-- Cell-level characterisation of the grow-path launch. -/
theorem copyMask_cell (mask old_mask : Nat → Int) (bbs cl maxL i j : Nat)
    (hcl : 1 ≤ cl) (hml : cl ≤ maxL) (hi : i < bbs) (hj : j < cl) :
    Launch_UpdateAttentionMask mask old_mask bbs cl maxL false (i * maxL + j) =
      if j < cl - 1 then old_mask (i * (cl - 1) + j) else 1 := by
  rw [launch_mask_false]
  have henc : i * cl + j = j + cl * i := by ring
  have hdiv : (i * cl + j) / cl = i := by rw [henc]; exact decode_div j i hj
  have hmod : (i * cl + j) % cl = j := by rw [henc]; exact decode_mod j i hj
  apply execThreads_write (CopyAndUpdateAttentionMask old_mask bbs cl maxL)
    (gridThreads256 (bbs * maxL)) (i * cl + j)
  · have h1 : i * cl + j < bbs * cl := by
      calc i * cl + j < i * cl + cl := by omega
        _ = (i + 1) * cl := by ring
        _ ≤ bbs * cl := Nat.mul_le_mul hi (Nat.le_refl cl)
    have h2 : bbs * cl ≤ bbs * maxL := Nat.mul_le_mul (Nat.le_refl bbs) hml
    have h3 := le_gridThreads256 (bbs * maxL)
    omega
  · unfold CopyAndUpdateAttentionMask
    rw [hdiv, hmod, if_pos hi]
    split <;> rfl
  · intro g hg hne p hp
    obtain ⟨hgb, hp1⟩ := copyMask_store_offset old_mask bbs cl maxL g p hp
    intro hEq
    rw [hp1] at hEq
    have hclpos : 0 < cl := hcl
    have hjm : g % cl < cl := Nat.mod_lt g hclpos
    obtain ⟨hq, hr⟩ := encode_inj (Nat.lt_of_lt_of_le hjm hml)
      (Nat.lt_of_lt_of_le hj hml) hEq
    have hdm := Nat.div_add_mod g cl
    rw [hq, hr] at hdm
    omega

/-- The fast-path kernel stores 1 at row i, column current_length. -/
theorem updateMask_cell_set (mask : Nat → Int) (bbs cl maxL i : Nat)
    (hcl : cl < maxL) (hi : i < bbs) :
    execThreads (UpdateAttentionMask bbs cl maxL) bbs mask (i * maxL + cl) = 1 := by
  apply execThreads_write (UpdateAttentionMask bbs cl maxL) bbs i
  · exact hi
  · simp [UpdateAttentionMask, hi]
  · intro g hg hne p hp
    simp only [UpdateAttentionMask, if_pos hg, Option.some.injEq] at hp
    rw [← hp]
    intro hEq
    obtain ⟨hq, hr⟩ := encode_inj hcl hcl hEq
    exact hne hq

/-- The fast-path kernel leaves every offset other than the
row * max_length + current_length targets unchanged. -/
theorem updateMask_cell_frame (mask : Nat → Int) (bbs cl maxL o : Nat)
    (h : ∀ g, g < bbs → g * maxL + cl ≠ o) :
    execThreads (UpdateAttentionMask bbs cl maxL) bbs mask o = mask o := by
  apply execThreads_frame
  intro g hg p hp
  simp only [UpdateAttentionMask, if_pos hg, Option.some.injEq] at hp
  rw [← hp]
  exact h g hg

/-- C5: grow path (update_only = false): for every in-range row i the launch
copies the current_length-1 old mask values of that row (old row width
current_length-1) into the new buffer (row width max_length) and sets the
entry at column current_length-1 to 1. -/
theorem extendMask_grow_copies_and_sets (mask old_mask : Nat → Int)
    (bbs cl maxL i : Nat) (hcl : 1 ≤ cl) (hml : cl ≤ maxL) (hi : i < bbs) :
    (∀ j, j < cl - 1 →
        Launch_UpdateAttentionMask mask old_mask bbs cl maxL false (i * maxL + j) =
          old_mask (i * (cl - 1) + j)) ∧
    Launch_UpdateAttentionMask mask old_mask bbs cl maxL false (i * maxL + (cl - 1)) = 1 := by
  constructor
  · intro j hj
    have h := copyMask_cell mask old_mask bbs cl maxL i j hcl hml hi (by omega)
    rw [h, if_pos hj]
  · have h := copyMask_cell mask old_mask bbs cl maxL i (cl - 1) hcl hml hi (by omega)
    rw [h, if_neg (by omega)]

/-- Witness for C5 at a concrete instance. -/
theorem extendMask_grow_copies_and_sets_witness :
    (1 ≤ 3 ∧ 3 ≤ 4 ∧ 1 < 2) ∧
      (Launch_UpdateAttentionMask (fun o => (0 : Int)) (fun o => (7 : Int)) 2 3 4 false
          (1 * 4 + 1) = (fun o => (7 : Int)) (1 * (3 - 1) + 1) ∧
        Launch_UpdateAttentionMask (fun o => (0 : Int)) (fun o => (7 : Int)) 2 3 4 false
          (1 * 4 + (3 - 1)) = 1) := by
  refine ⟨by omega, ?_⟩
  have h := extendMask_grow_copies_and_sets (fun o => (0 : Int)) (fun o => (7 : Int))
    2 3 4 1 (by omega) (by omega) (by omega)
  exact ⟨h.1 1 (by omega), h.2⟩

/-- C6: mask growth is monotone: in the fast path any entry already equal to 1
stays 1 (the kernel only stores the constant 1); in the grow path any logical
mask entry equal to 1 in the old buffer (of row width current_length-1, rows
satisfying the causal prefix-of-1s invariant) is 1 in the new buffer; no mask
entry is ever reset from 1 to 0. -/
theorem extendMask_monotone :
    (∀ (mask old_mask : Nat → Int) (bbs cl maxL o : Nat), mask o = 1 →
        Launch_UpdateAttentionMask mask old_mask bbs cl maxL true o = 1) ∧
    (∀ (mask old_mask : Nat → Int) (bbs cl maxL i j : Nat), 1 ≤ cl → cl ≤ maxL →
        i < bbs → (∀ j2, j2 < cl - 1 → old_mask (i * (cl - 1) + j2) = 1) →
        j < cl - 1 → old_mask (i * (cl - 1) + j) = 1 →
        Launch_UpdateAttentionMask mask old_mask bbs cl maxL false (i * maxL + j) = 1) := by
  constructor
  · intro mask old_mask bbs cl maxL o ho
    rw [launch_mask_true]
    apply execThreads_const _ _ _ _ _ _ ho
    intro g p hp
    unfold UpdateAttentionMask at hp
    split at hp
    · simp only [Option.some.injEq] at hp
      rw [← hp]
    · exact Option.noConfusion hp
  · intro mask old_mask bbs cl maxL i j hcl hml hi hpre hj hone
    have h := copyMask_cell mask old_mask bbs cl maxL i j hcl hml hi (by omega)
    rw [h, if_pos hj, hone]

/-- Witness for C6 at a concrete instance. -/
theorem extendMask_monotone_witness :
    ((fun o => (1 : Int)) 5 = 1 ∧
        Launch_UpdateAttentionMask (fun o => (1 : Int)) (fun o => (0 : Int)) 3 2 4 true 5 = 1) ∧
      (1 ≤ 2 ∧ 2 ≤ 4 ∧ 0 < 1 ∧ 0 < 2 - 1 ∧ (fun o => (1 : Int)) (0 * (2 - 1) + 0) = 1 ∧
        Launch_UpdateAttentionMask (fun o => (0 : Int)) (fun o => (1 : Int)) 1 2 4 false
          (0 * 4 + 0) = 1) := by
  constructor
  · exact ⟨rfl, extendMask_monotone.1 (fun o => (1 : Int)) (fun o => (0 : Int)) 3 2 4 5 rfl⟩
  · refine ⟨by omega, by omega, by omega, by omega, rfl, ?_⟩
    exact extendMask_monotone.2 (fun o => (0 : Int)) (fun o => (1 : Int)) 1 2 4 0 0
      (by omega) (by omega) (by omega) (fun j2 h2 => rfl) (by omega) rfl

/-- C7: fast path (update_only = true) frame property: exactly the single
entry at column current_length of each in-range row is set to 1, and every
other entry of the buffer (other columns, and rows at index at least
batch_beam_size) is unchanged. -/
theorem updateAttentionMask_fastpath_frame (mask old_mask : Nat → Int)
    (bbs cl maxL : Nat) (hcl : cl < maxL) :
    (∀ i, i < bbs →
        Launch_UpdateAttentionMask mask old_mask bbs cl maxL true (i * maxL + cl) = 1) ∧
    (∀ i j, j < maxL → (j ≠ cl ∨ bbs ≤ i) →
        Launch_UpdateAttentionMask mask old_mask bbs cl maxL true (i * maxL + j) =
          mask (i * maxL + j)) := by
  constructor
  · intro i hi
    rw [launch_mask_true]
    exact updateMask_cell_set mask bbs cl maxL i hcl hi
  · intro i j hjm hside
    rw [launch_mask_true]
    apply updateMask_cell_frame
    intro g hg hEq
    obtain ⟨hq, hr⟩ := encode_inj hcl hjm hEq
    rcases hside with hne | hge
    · exact hne hr.symm
    · omega

/-- Witness for C7 at a concrete instance. -/
theorem updateAttentionMask_fastpath_frame_witness :
    1 < 3 ∧ 1 < 2 ∧ 0 < 3 ∧ (0 ≠ 1 ∨ 2 ≤ 1) ∧
      (Launch_UpdateAttentionMask (fun o => (5 : Int)) (fun o => (0 : Int)) 2 1 3 true
          (1 * 3 + 1) = 1 ∧
        Launch_UpdateAttentionMask (fun o => (5 : Int)) (fun o => (0 : Int)) 2 1 3 true
          (1 * 3 + 0) = (fun o => (5 : Int)) (1 * 3 + 0)) := by
  have h := updateAttentionMask_fastpath_frame (fun o => (5 : Int)) (fun o => (0 : Int))
    2 1 3 (by omega)
  exact ⟨by omega, by omega, by omega, Or.inl (by omega),
    h.1 1 (by omega), h.2 1 0 (by omega) (Or.inl (by omega))⟩

/-- C10: the fast-path mask update is idempotent: launching it twice with
identical arguments yields the same buffer as launching it once (every store
writes the constant 1 into the same cells). -/
theorem updateAttentionMask_fastpath_idempotent (mask old_mask : Nat → Int)
    (bbs cl maxL : Nat) (hcl : cl < maxL) :
    Launch_UpdateAttentionMask
        (Launch_UpdateAttentionMask mask old_mask bbs cl maxL true)
        old_mask bbs cl maxL true =
      Launch_UpdateAttentionMask mask old_mask bbs cl maxL true := by
  funext o
  rw [launch_mask_true, launch_mask_true]
  by_cases h : ∃ i, i < bbs ∧ o = i * maxL + cl
  · obtain ⟨i, hi, rfl⟩ := h
    rw [updateMask_cell_set _ bbs cl maxL i hcl hi,
      updateMask_cell_set _ bbs cl maxL i hcl hi]
  · push_neg at h
    have hfr : ∀ g, g < bbs → g * maxL + cl ≠ o := by
      intro g hg hEq
      exact absurd hEq.symm (h g hg)
    rw [updateMask_cell_frame _ bbs cl maxL o hfr]

/-- Witness for C10 at a concrete instance. -/
theorem updateAttentionMask_fastpath_idempotent_witness :
    1 < 3 ∧
      Launch_UpdateAttentionMask
          (Launch_UpdateAttentionMask (fun o => (0 : Int)) (fun o => (0 : Int)) 2 1 3 true)
          (fun o => (0 : Int)) 2 1 3 true =
        Launch_UpdateAttentionMask (fun o => (0 : Int)) (fun o => (0 : Int)) 2 1 3 true :=
  ⟨by omega, updateAttentionMask_fastpath_idempotent (fun o => (0 : Int)) (fun o => (0 : Int))
    2 1 3 (by omega)⟩

/-- Three-component mixed-radix decode of x + X*(y + Y*z). -/
theorem decode3 {X Y : Nat} (x y z : Nat) (hx : x < X) (hy : y < Y) :
    (x + X * (y + Y * z)) % X = x ∧
    (x + X * (y + Y * z)) / X % Y = y ∧
    (x + X * (y + Y * z)) / (X * Y) = z := by
  have h1 := decode_mod x (y + Y * z) hx
  have h2 := decode_div x (y + Y * z) hx
  refine ⟨h1, ?_, ?_⟩
  · rw [h2]; exact decode_mod y z hy
  · rw [← Nat.div_div_eq_div_mul, h2]; exact decode_div y z hy

/-- Three-component mixed-radix reconstruction of a thread id. -/
theorem recon2 (tid X Y : Nat) :
    tid = tid % X + X * (tid / X % Y + Y * (tid / (X * Y))) := by
  have h2 : tid / X % Y + Y * (tid / X / Y) = tid / X := Nat.mod_add_div (tid / X) Y
  have h1 : tid % X + X * (tid / X) = tid := Nat.mod_add_div tid X
  rw [← Nat.div_div_eq_div_mul, h2, h1]

/-- Body of the `UpdateDecoderMaskedMultiHeadAttentionCacheIndirectionKernel`
kernel: launched with block (32) threads on a grid of
((current_length + 31)/32, batch_size * beam_width) blocks, so for linear
thread id tid the locals are time_step = tid % 32 + (tid / 32 % gridX) * 32
and bb_id = tid / (32 * gridX).  Buffers hold 32-bit integers (modelled as
unbounded Int); the source's C truncated `%` on int is Int.tmod. -/
def UpdateDecoderMaskedMultiHeadAttentionCacheIndirectionKernel
    (src_indir_cache beam_ids : Int → Int)
    (batch_size beam_width input_seq_length max_seq_length current_length : Nat)
    (tid : Nat) : Option (Int × Int) :=
  let gX := (current_length + 31) / 32
  let time_step := tid % 32 + tid / 32 % gX * 32
  let bb_id := tid / (32 * gX)
  let batch_id := bb_id / beam_width
  let beam_id := bb_id % beam_width
  if bb_id < beam_width * batch_size ∧ time_step < current_length then
    let src_beam : Int :=
      (beam_ids ((batch_id * beam_width + beam_id : Nat) : Int)).tmod (beam_width : Int)
    let tgt_offset : Int :=
      ((batch_id * beam_width * max_seq_length + beam_id * max_seq_length + time_step : Nat) : Int)
    if time_step < input_seq_length then some (tgt_offset, 0)
    else if time_step = current_length - 1 then some (tgt_offset, (beam_id : Int))
    else
      some (tgt_offset,
        src_indir_cache (((batch_id * beam_width * max_seq_length : Nat) : Int) +
          src_beam * (max_seq_length : Int) + (time_step : Int)))
  else none

/-- Launcher `UpdateDecoderMaskedMultiHeadAttentionCacheIndirection`: grid of
((current_length + 31)/32, batch_size * beam_width) blocks of 32 threads. -/
def UpdateDecoderMaskedMultiHeadAttentionCacheIndirection
    (tgt_indir_cache src_indir_cache beam_ids : Int → Int)
    (batch_size beam_width input_seq_length max_seq_length current_length : Nat) :
    Int → Int :=
  execThreads
    (UpdateDecoderMaskedMultiHeadAttentionCacheIndirectionKernel src_indir_cache beam_ids
      batch_size beam_width input_seq_length max_seq_length current_length)
    (32 * ((current_length + 31) / 32) * (batch_size * beam_width)) tgt_indir_cache

/-- Every store of the indirection kernel has an in-range (bb_id, time_step)
pair and targets offset bb_id * max_seq_length + time_step. -/
theorem indirectionKernel_store (src_indir_cache beam_ids : Int → Int)
    (B W isl maxL cl tid : Nat) (p : Int × Int)
    (hp : UpdateDecoderMaskedMultiHeadAttentionCacheIndirectionKernel src_indir_cache beam_ids
      B W isl maxL cl tid = some p) :
    tid / (32 * ((cl + 31) / 32)) < W * B ∧
    tid % 32 + tid / 32 % ((cl + 31) / 32) * 32 < cl ∧
    p.1 = ((tid / (32 * ((cl + 31) / 32)) * maxL +
      (tid % 32 + tid / 32 % ((cl + 31) / 32) * 32) : Nat) : Int) := by
  simp only [UpdateDecoderMaskedMultiHeadAttentionCacheIndirectionKernel] at hp
  by_cases hg : tid / (32 * ((cl + 31) / 32)) < W * B ∧
      tid % 32 + tid / 32 % ((cl + 31) / 32) * 32 < cl
  · refine ⟨hg.1, hg.2, ?_⟩
    rw [if_pos hg] at hp
    have hbb : tid / (32 * ((cl + 31) / 32)) / W * W + tid / (32 * ((cl + 31) / 32)) % W =
        tid / (32 * ((cl + 31) / 32)) := by
      rw [mul_comm]; exact Nat.div_add_mod _ W
    have hoff : tid / (32 * ((cl + 31) / 32)) / W * W * maxL +
        tid / (32 * ((cl + 31) / 32)) % W * maxL +
        (tid % 32 + tid / 32 % ((cl + 31) / 32) * 32) =
        tid / (32 * ((cl + 31) / 32)) * maxL +
        (tid % 32 + tid / 32 % ((cl + 31) / 32) * 32) := by
      calc tid / (32 * ((cl + 31) / 32)) / W * W * maxL +
            tid / (32 * ((cl + 31) / 32)) % W * maxL +
            (tid % 32 + tid / 32 % ((cl + 31) / 32) * 32)
          = (tid / (32 * ((cl + 31) / 32)) / W * W + tid / (32 * ((cl + 31) / 32)) % W) * maxL +
            (tid % 32 + tid / 32 % ((cl + 31) / 32) * 32) := by ring
        _ = tid / (32 * ((cl + 31) / 32)) * maxL +
            (tid % 32 + tid / 32 % ((cl + 31) / 32) * 32) := by rw [hbb]
    split_ifs at hp <;>
      (simp only [Option.some.injEq] at hp; rw [← hp]; rw [← hoff])
  · rw [if_neg hg] at hp
    exact Option.noConfusion hp

/-- Cell-level characterisation of the indirection launch, exactly as the
source computes it (C truncated mod on the beam_ids entry). -/
theorem indirection_cell (tgt src_indir_cache beam_ids : Int → Int)
    (B W isl maxL cl b w t : Nat) (hml : cl ≤ maxL)
    (hb : b < B) (hw : w < W) (ht : t < cl) :
    UpdateDecoderMaskedMultiHeadAttentionCacheIndirection tgt src_indir_cache beam_ids
        B W isl maxL cl ((b * W * maxL + w * maxL + t : Nat) : Int) =
      if t < isl then 0
      else if t = cl - 1 then (w : Int)
      else src_indir_cache (((b * W * maxL : Nat) : Int) +
        (beam_ids ((b * W + w : Nat) : Int)).tmod (W : Int) * (maxL : Int) + (t : Int)) := by
  have hgX : 0 < (cl + 31) / 32 := by omega
  have hbx : t / 32 < (cl + 31) / 32 := by omega
  have hbb : w + W * b < W * B := mr_lt hw hb
  have hd := decode3 (t % 32) (t / 32) (w + W * b) (Nat.mod_lt t (by omega)) hbx
  apply execThreads_write _ _ (t % 32 + 32 * (t / 32 + (cl + 31) / 32 * (w + W * b)))
  · have h1 : t / 32 + (cl + 31) / 32 * (w + W * b) < (cl + 31) / 32 * (W * B) :=
      mr_lt hbx hbb
    have h2 : t % 32 + 32 * (t / 32 + (cl + 31) / 32 * (w + W * b)) <
        32 * ((cl + 31) / 32 * (W * B)) := mr_lt (Nat.mod_lt t (by omega)) h1
    have h3 : 32 * ((cl + 31) / 32 * (W * B)) = 32 * ((cl + 31) / 32) * (B * W) := by ring
    omega
  · simp only [UpdateDecoderMaskedMultiHeadAttentionCacheIndirectionKernel]
    rw [hd.1, hd.2.1, hd.2.2]
    have hts : t % 32 + t / 32 * 32 = t := by omega
    have hbat : (w + W * b) / W = b := decode_div w b hw
    have hbeam : (w + W * b) % W = w := decode_mod w b hw
    rw [hts, hbat, hbeam]
    rw [if_pos ⟨hbb, ht⟩]
    split_ifs <;> rfl
  · intro j hj hne p hp
    obtain ⟨hjb, hjt, hj1⟩ := indirectionKernel_store src_indir_cache beam_ids
      B W isl maxL cl j p hp
    intro hEq
    rw [hj1] at hEq
    have hnat : j / (32 * ((cl + 31) / 32)) * maxL +
        (j % 32 + j / 32 % ((cl + 31) / 32) * 32) =
        b * W * maxL + w * maxL + t := by exact_mod_cast hEq
    have htgt : b * W * maxL + w * maxL + t = (w + W * b) * maxL + t := by ring
    rw [htgt] at hnat
    obtain ⟨hq, hr⟩ := encode_inj (Nat.lt_of_lt_of_le hjt hml)
      (Nat.lt_of_lt_of_le ht hml) hnat
    have hr' : j / 32 % ((cl + 31) / 32) * 32 + j % 32 = t / 32 * 32 + t % 32 := by omega
    obtain ⟨hx, hy⟩ := encode_inj (Nat.mod_lt j (by omega)) (Nat.mod_lt t (by omega)) hr'
    exact hne (by rw [recon2 j 32 ((cl + 31) / 32), hy, hx, hq])

/-- C2: the indirection update writes, for every in-range (batch, beam, time)
triple, 0 for prompt positions, the beam's own id at the newest position, and
otherwise the prior table's entry for the reselected source beam
beam_ids[b,w] mod W. -/
theorem updateCacheIndirection_cases (tgt src_indir_cache beam_ids : Int → Int)
    (B W isl maxL cl b w t : Nat)
    (hisl : 0 < isl) (hcl : isl ≤ cl) (hml : cl ≤ maxL)
    (hb : b < B) (hw : w < W) (ht : t < cl)
    (hnn : 0 ≤ beam_ids ((b * W + w : Nat) : Int))
    (hlt : beam_ids ((b * W + w : Nat) : Int) < (W : Int)) :
    UpdateDecoderMaskedMultiHeadAttentionCacheIndirection tgt src_indir_cache beam_ids
        B W isl maxL cl ((b * W * maxL + w * maxL + t : Nat) : Int) =
      if t < isl then 0
      else if t = cl - 1 then (w : Int)
      else src_indir_cache (((b * W * maxL : Nat) : Int) +
        beam_ids ((b * W + w : Nat) : Int) % (W : Int) * (maxL : Int) + (t : Int)) := by
  rw [indirection_cell tgt src_indir_cache beam_ids B W isl maxL cl b w t hml hb hw ht,
    Int.tmod_eq_emod hnn (Int.natCast_nonneg W)]

/-- Witness for C2 at a concrete instance. -/
theorem updateCacheIndirection_cases_witness :
    ((0 : Nat) < 3 ∧ (3 : Nat) ≤ 5 ∧ (5 : Nat) ≤ 8 ∧ (0 : Nat) < 1 ∧ (1 : Nat) < 2 ∧
        (3 : Nat) < 5) ∧
      UpdateDecoderMaskedMultiHeadAttentionCacheIndirection (fun o => (0 : Int))
          (fun o => o) (fun i => if i = 1 then (1 : Int) else 0) 1 2 3 8 5
          ((0 * 2 * 8 + 1 * 8 + 3 : Nat) : Int) =
        if (3 : Nat) < 3 then 0
        else if (3 : Nat) = 5 - 1 then ((1 : Nat) : Int)
        else (fun o => o) (((0 * 2 * 8 : Nat) : Int) +
          (fun i => if i = 1 then (1 : Int) else 0) ((0 * 2 + 1 : Nat) : Int) % ((2 : Nat) : Int) *
            ((8 : Nat) : Int) + ((3 : Nat) : Int)) := by
  refine ⟨by omega, ?_⟩
  exact updateCacheIndirection_cases (fun o => (0 : Int)) (fun o => o)
    (fun i => if i = 1 then (1 : Int) else 0) 1 2 3 8 5 0 1 3
    (by omega) (by omega) (by omega) (by omega) (by omega) (by omega)
    (by norm_num) (by norm_num)

/-- Kernel-call state for the indirection update: the launcher receives the
target table, the (const) source table and the (const) beam_ids buffer. -/
structure CacheIndirState where
  tgt : Int → Int
  src : Int → Int
  beamIds : Int → Int

/-- The launcher writes only through the target pointer; source and beam_ids
are const in the source signature. -/
def runUpdateCacheIndirection (st : CacheIndirState)
    (batch_size beam_width input_seq_length max_seq_length current_length : Nat) :
    CacheIndirState :=
  { tgt := UpdateDecoderMaskedMultiHeadAttentionCacheIndirection st.tgt st.src st.beamIds
      batch_size beam_width input_seq_length max_seq_length current_length,
    src := st.src, beamIds := st.beamIds }

/-- C9: the indirection update stores only to target entries with bb_id in
range and time step below current_length; every target entry with time step
at least current_length (up to max_length) or row at least B*W keeps its
prior value, and the source table and beam_ids buffer are unmodified. -/
theorem updateCacheIndirection_frame (st : CacheIndirState)
    (B W isl maxL cl : Nat) (hml : cl ≤ maxL) :
    (∀ bb t : Nat, t < maxL → (cl ≤ t ∨ B * W ≤ bb) →
        (runUpdateCacheIndirection st B W isl maxL cl).tgt ((bb * maxL + t : Nat) : Int) =
          st.tgt ((bb * maxL + t : Nat) : Int)) ∧
    (runUpdateCacheIndirection st B W isl maxL cl).src = st.src ∧
    (runUpdateCacheIndirection st B W isl maxL cl).beamIds = st.beamIds := by
  refine ⟨?_, rfl, rfl⟩
  intro bb t htm hside
  apply execThreads_frame
  intro j hj p hp
  obtain ⟨hjb, hjt, hj1⟩ := indirectionKernel_store st.src st.beamIds B W isl maxL cl j p hp
  rw [hj1]
  intro hEq
  have hnat : j / (32 * ((cl + 31) / 32)) * maxL +
      (j % 32 + j / 32 % ((cl + 31) / 32) * 32) = bb * maxL + t := by exact_mod_cast hEq
  obtain ⟨hq, hr⟩ := encode_inj (Nat.lt_of_lt_of_le hjt hml) htm hnat
  have hWB : W * B = B * W := by ring
  rcases hside with hle | hge <;> omega

/-- Witness for C9 at a concrete instance. -/
theorem updateCacheIndirection_frame_witness :
    ((5 : Nat) ≤ 8 ∧ (6 : Nat) < 8 ∧ (5 ≤ (6 : Nat) ∨ 1 * 2 ≤ (0 : Nat))) ∧
      ((runUpdateCacheIndirection
            { tgt := fun o => o, src := fun o => o, beamIds := fun o => (0 : Int) }
            1 2 3 8 5).tgt ((0 * 8 + 6 : Nat) : Int) =
          (fun o => o) ((0 * 8 + 6 : Nat) : Int) ∧
        (runUpdateCacheIndirection
            { tgt := fun o => o, src := fun o => o, beamIds := fun o => (0 : Int) }
            1 2 3 8 5).src = fun o => o) := by
  have h := updateCacheIndirection_frame
    { tgt := fun o => o, src := fun o => o, beamIds := fun o => (0 : Int) }
    1 2 3 8 5 (by omega)
  exact ⟨⟨by omega, by omega, Or.inl (by omega)⟩,
    h.1 0 6 (by omega) (Or.inl (by omega)), h.2.1⟩

/-- Five-component mixed-radix reconstruction of a thread id. -/
theorem recon3 (tid X Y Z V : Nat) :
    tid = tid % X + X * (tid / X % Y + Y * (tid / (X * Y) % Z +
      Z * (tid / (X * Y * Z) % V + V * (tid / (X * Y * Z * V))))) := by
  have e1 : tid / (X * Y) / Z = tid / (X * Y * Z) := Nat.div_div_eq_div_mul _ _ _
  have e2 : tid / (X * Y * Z) / V = tid / (X * Y * Z * V) := Nat.div_div_eq_div_mul _ _ _
  have e3 : tid / (X * Y) / (Z * V) = tid / (X * Y) / Z / V :=
    (Nat.div_div_eq_div_mul _ _ _).symm
  have h2 := recon2 (tid / (X * Y)) Z V
  rw [e3, e1, e2] at h2
  have h1 := recon2 tid X Y
  rw [h2] at h1
  exact h1

/-- Tile width of the reorder kernel (supports head_size up to 128, i.e.
chunked head size up to 32). -/
def kTileSize : Nat := 32

/-- Sequence-tile height of the reorder kernel. -/
def kSeqTileSize : Nat := 16

/-- Grid x-extent of the reorder launch: ceil(max_length / kSeqTileSize). -/
def reorderGridX (max_length : Nat) : Nat :=
  (max_length + kSeqTileSize - 1) / kSeqTileSize

/-- Contents of the shared-memory staging tile after the __syncthreads
barrier, for the block at (b, n, blockIdx.x): tile[y][x] holds
in_buffer[base_offset + (s_base + y) * chunked_head_size + x], staged by the
thread with threadIdx.y = y, threadIdx.x = x under the guard
s_base + y < max_length — exactly the guard under which the transposed read
below consumes it.  Elements are whole float4 vector chunks (16 bytes, one
chunk of 4 fp32 or 8 fp16 scalars), modelled as abstract Int values, so the
statement is bit-for-bit on chunks. -/
def reorderTile (in_buffer : Nat → Int)
    (base_offset chunked_head_size s_base y x : Nat) : Int :=
  in_buffer (base_offset + (s_base + y) * chunked_head_size + x)

/-- Body of `ReorderPastStatesKernel` for linear thread id tid: block dims
(chunked_head_size, kSeqTileSize), grid dims (reorderGridX max_length,
num_heads, batch_size); threadIdx.x varies fastest.  After the barrier the
thread re-indexes the staged tile transposed and stores one chunk. -/
def ReorderPastStatesKernel (in_buffer : Nat → Int)
    (num_heads max_length chunked_head_size : Nat) (tid : Nat) : Option (Nat × Int) :=
  let gX := reorderGridX max_length
  let tx := tid % chunked_head_size
  let ty := tid / chunked_head_size % kSeqTileSize
  let bx := tid / (chunked_head_size * kSeqTileSize) % gX
  let n := tid / (chunked_head_size * kSeqTileSize * gX) % num_heads
  let b := tid / (chunked_head_size * kSeqTileSize * gX * num_heads)
  let s_base := bx * kSeqTileSize
  let base_offset := (b * num_heads + n) * max_length * chunked_head_size
  let tidx := tx + ty * chunked_head_size
  let tidx_x := tidx % kSeqTileSize
  let tidx_y := tidx / kSeqTileSize
  let s2 := s_base + tidx_x
  if s2 < max_length then
    some (base_offset + tidx_y * max_length + s2,
      reorderTile in_buffer base_offset chunked_head_size s_base tidx_x tidx_y)
  else none

/-- Launcher `ReorderPastStatesKernelLauncher`: computes chunked_head_size =
head_size / chunk_size and launches the kernel only when chunk_size is 4 or
8; any other chunk width skips the launch entirely (no store into
out_buffer, and no error is raised). -/
def ReorderPastStatesKernelLauncher (out_buffer in_buffer : Nat → Int)
    (batch_size num_heads max_length head_size chunk_size : Nat) : Nat → Int :=
  if chunk_size = 4 ∨ chunk_size = 8 then
    execThreads
      (ReorderPastStatesKernel in_buffer num_heads max_length (head_size / chunk_size))
      (head_size / chunk_size * kSeqTileSize * reorderGridX max_length * num_heads *
        batch_size)
      out_buffer
  else out_buffer

/-- Cell-level characterisation of the reorder kernel: the output at logical
index [b, n, c, t] equals the input at logical index [b, n, t, c]. -/
theorem reorder_cell (out_buffer in_buffer : Nat → Int) (B nh maxL chs b n c t : Nat)
    (hb : b < B) (hn : n < nh) (hc : c < chs) (ht : t < maxL) :
    execThreads (ReorderPastStatesKernel in_buffer nh maxL chs)
        (chs * kSeqTileSize * reorderGridX maxL * nh * B) out_buffer
        ((b * nh + n) * maxL * chs + c * maxL + t) =
      in_buffer ((b * nh + n) * maxL * chs + t * chs + c) := by
  have hchs : 0 < chs := by omega
  have hgX : 0 < reorderGridX maxL := by
    simp only [reorderGridX, kSeqTileSize]; omega
  have hbx : t / 16 < reorderGridX maxL := by
    simp only [reorderGridX, kSeqTileSize]; omega
  have htylt : (t % 16 + 16 * c) / chs < 16 := by
    rw [Nat.div_lt_iff_lt_mul hchs]
    have h1 : 16 * c + 16 ≤ 16 * chs := by omega
    have h2 : chs * 16 = 16 * chs := by ring
    omega
  have hd1 := decode3 ((t % 16 + 16 * c) % chs) ((t % 16 + 16 * c) / chs)
    (t / 16 + reorderGridX maxL * (n + nh * b)) (Nat.mod_lt _ hchs) htylt
  have hinner1 : (t / 16 + reorderGridX maxL * (n + nh * b)) % reorderGridX maxL = t / 16 :=
    decode_mod _ _ hbx
  have hinner2 : (t / 16 + reorderGridX maxL * (n + nh * b)) / reorderGridX maxL =
      n + nh * b := decode_div _ _ hbx
  have hn1 : (n + nh * b) % nh = n := decode_mod _ _ hn
  have hn2 : (n + nh * b) / nh = b := decode_div _ _ hn
  have htX : (t % 16 + 16 * c) % 16 = t % 16 := decode_mod _ _ (Nat.mod_lt t (by omega))
  have htY : (t % 16 + 16 * c) / 16 = c := decode_div _ _ (Nat.mod_lt t (by omega))
  obtain ⟨tid0, htid0⟩ : ∃ u, u = (t % 16 + 16 * c) % chs +
      chs * ((t % 16 + 16 * c) / chs + 16 * (t / 16 + reorderGridX maxL * (n + nh * b))) :=
    ⟨_, rfl⟩
  have c1 : tid0 % chs = (t % 16 + 16 * c) % chs := by rw [htid0]; exact hd1.1
  have c2 : tid0 / chs % 16 = (t % 16 + 16 * c) / chs := by rw [htid0]; exact hd1.2.1
  have c3 : tid0 / (chs * 16) % reorderGridX maxL = t / 16 := by
    rw [htid0, hd1.2.2]; exact hinner1
  have c4 : tid0 / (chs * 16 * reorderGridX maxL) % nh = n := by
    rw [← Nat.div_div_eq_div_mul, htid0, hd1.2.2, hinner2]; exact hn1
  have c5 : tid0 / (chs * 16 * reorderGridX maxL * nh) = b := by
    rw [← Nat.div_div_eq_div_mul, ← Nat.div_div_eq_div_mul, htid0, hd1.2.2, hinner2]
    exact hn2
  apply execThreads_write _ _ tid0
  · have h1 : n + nh * b < nh * B := mr_lt hn hb
    have h2 : t / 16 + reorderGridX maxL * (n + nh * b) <
        reorderGridX maxL * (nh * B) := mr_lt hbx h1
    have h3 : (t % 16 + 16 * c) / chs + 16 * (t / 16 + reorderGridX maxL * (n + nh * b)) <
        16 * (reorderGridX maxL * (nh * B)) := mr_lt htylt h2
    have h4 : (t % 16 + 16 * c) % chs + chs * ((t % 16 + 16 * c) / chs +
        16 * (t / 16 + reorderGridX maxL * (n + nh * b))) <
        chs * (16 * (reorderGridX maxL * (nh * B))) := mr_lt (Nat.mod_lt _ hchs) h3
    have h5 : chs * (16 * (reorderGridX maxL * (nh * B))) =
        chs * kSeqTileSize * reorderGridX maxL * nh * B := by
      simp only [kSeqTileSize]; ring
    rw [htid0, ← h5]
    exact h4
  · simp only [ReorderPastStatesKernel, reorderTile, kSeqTileSize]
    rw [c1, c2, c3, c4, c5]
    rw [Nat.mod_add_div' (t % 16 + 16 * c) chs]
    rw [htX, htY]
    rw [Nat.div_add_mod' t 16]
    rw [if_pos ht]
  · intro j hj hne p hp
    simp only [kSeqTileSize] at hj
    simp only [ReorderPastStatesKernel, kSeqTileSize] at hp
    split_ifs at hp with hg
    · simp only [Option.some.injEq] at hp
      subst hp
      intro hEq
      replace hEq :
          (j / (chs * 16 * reorderGridX maxL * nh) * nh +
            j / (chs * 16 * reorderGridX maxL) % nh) * maxL * chs +
            (j % chs + j / chs % 16 * chs) / 16 * maxL +
            (j / (chs * 16) % reorderGridX maxL * 16 +
              (j % chs + j / chs % 16 * chs) % 16) =
          (b * nh + n) * maxL * chs + c * maxL + t := hEq
      obtain ⟨u, hu⟩ : ∃ u, j % chs + j / chs % 16 * chs = u := ⟨_, rfl⟩
      rw [hu] at hEq hg
      have hjmod : j % chs < chs := Nat.mod_lt j hchs
      have hult : u < 16 * chs := by
        rw [← hu]
        have h2 : j / chs % 16 * chs ≤ 15 * chs :=
          Nat.mul_le_mul_right chs (by omega)
        have h3 : (15 : Nat) * chs + chs = 16 * chs := by ring
        linarith
      have htYJlt : u / 16 < chs := by omega
      have hnJlt : j / (chs * 16 * reorderGridX maxL) % nh < nh :=
        Nat.mod_lt _ (by omega)
      have hKpos : 0 < chs * 16 * reorderGridX maxL * nh :=
        Nat.mul_pos (Nat.mul_pos (Nat.mul_pos hchs (by omega)) hgX) (by omega)
      have hbJlt : j / (chs * 16 * reorderGridX maxL * nh) < B := by
        rw [Nat.div_lt_iff_lt_mul hKpos]
        have h6 : B * (chs * 16 * reorderGridX maxL * nh) =
            chs * 16 * reorderGridX maxL * nh * B := by ring
        linarith
      have hEq2 : ((j / (chs * 16 * reorderGridX maxL * nh) * nh +
            j / (chs * 16 * reorderGridX maxL) % nh) * chs + u / 16) * maxL +
            (j / (chs * 16) % reorderGridX maxL * 16 + u % 16) =
          ((b * nh + n) * chs + c) * maxL + t := by
        calc ((j / (chs * 16 * reorderGridX maxL * nh) * nh +
              j / (chs * 16 * reorderGridX maxL) % nh) * chs + u / 16) * maxL +
              (j / (chs * 16) % reorderGridX maxL * 16 + u % 16)
            = (j / (chs * 16 * reorderGridX maxL * nh) * nh +
              j / (chs * 16 * reorderGridX maxL) % nh) * maxL * chs + u / 16 * maxL +
              (j / (chs * 16) % reorderGridX maxL * 16 + u % 16) := by ring
          _ = (b * nh + n) * maxL * chs + c * maxL + t := hEq
          _ = ((b * nh + n) * chs + c) * maxL + t := by ring
      obtain ⟨hq1, hs2t⟩ := encode_inj hg ht hEq2
      obtain ⟨hq2, htYc⟩ := encode_inj htYJlt hc hq1
      obtain ⟨hbb2, hnn2⟩ := encode_inj hnJlt hn hq2
      rw [← Nat.div_add_mod' t 16] at hs2t
      obtain ⟨hbx2, htX2⟩ := encode_inj (Nat.mod_lt u (by omega))
        (Nat.mod_lt t (by omega)) hs2t
      have htidxJeq : u = t % 16 + 16 * c := by
        have h := Nat.div_add_mod u 16
        rw [htYc, htX2] at h
        omega
      have hform : j / chs % 16 * chs + j % chs =
          (t % 16 + 16 * c) / chs * chs + (t % 16 + 16 * c) % chs := by
        rw [Nat.div_add_mod' (t % 16 + 16 * c) chs, ← htidxJeq, ← hu]
        exact Nat.add_comm _ _
      obtain ⟨hty0, htx0⟩ := encode_inj hjmod (Nat.mod_lt _ hchs) hform
      refine hne ?_
      rw [recon3 j chs 16 (reorderGridX maxL) nh, htx0, hty0, hbx2, hnn2, hbb2]
      exact htid0.symm

/-- Spec-level inverse axis swap: reads a layout-B buffer [B,N,H2,Lmax,chunk]
back into layout A [B,N,Lmax,H2,chunk] by swapping the head-chunk and
time-step axes; this is the mathematical inverse of the transform of the
spec's section 4.2 (it is not a kernel of the source; it serves as the
comparison point for the round-trip clause of the claim). -/
def invAxisSwap (buf : Nat → Int) (num_heads max_length chunked_head_size : Nat) :
    Nat → Int := fun o =>
  buf (o / (chunked_head_size * max_length) * max_length * chunked_head_size +
    o % chunked_head_size * max_length + o / chunked_head_size % max_length)

theorem launch_reorder_supported (out_buffer in_buffer : Nat → Int)
    (batch_size num_heads max_length head_size chunk_size : Nat)
    (hchunk : chunk_size = 4 ∨ chunk_size = 8) :
    ReorderPastStatesKernelLauncher out_buffer in_buffer batch_size num_heads
        max_length head_size chunk_size =
      execThreads
        (ReorderPastStatesKernel in_buffer num_heads max_length (head_size / chunk_size))
        (head_size / chunk_size * kSeqTileSize * reorderGridX max_length * num_heads *
          batch_size)
        out_buffer := by
  unfold ReorderPastStatesKernelLauncher
  rw [if_pos hchunk]

/-- C1: for chunk widths 4 and 8, head_size divisible by the chunk width with
chunked head size at most the tile width, the launched reorder satisfies
out[b,n,c,t] = in[b,n,t,c] for every in-range index — for any max_length,
whether or not it is a multiple of the 16-row sequence tile — and composing
with the inverse axis swap recovers the input buffer bit-for-bit at every
in-range offset. -/
theorem reorderPastStates_swaps_axes (out_buffer in_buffer : Nat → Int)
    (batch_size num_heads max_length head_size chunk_size : Nat)
    (hchunk : chunk_size = 4 ∨ chunk_size = 8)
    (hdvd : chunk_size ∣ head_size)
    (hsize : head_size / chunk_size ≤ kTileSize) :
    (∀ b n c t, b < batch_size → n < num_heads → c < head_size / chunk_size →
      t < max_length →
      ReorderPastStatesKernelLauncher out_buffer in_buffer batch_size num_heads
          max_length head_size chunk_size
          ((b * num_heads + n) * max_length * (head_size / chunk_size) +
            c * max_length + t) =
        in_buffer ((b * num_heads + n) * max_length * (head_size / chunk_size) +
          t * (head_size / chunk_size) + c)) ∧
    (∀ o, o < batch_size * num_heads * max_length * (head_size / chunk_size) →
      invAxisSwap
          (ReorderPastStatesKernelLauncher out_buffer in_buffer batch_size num_heads
            max_length head_size chunk_size)
          num_heads max_length (head_size / chunk_size) o =
        in_buffer o) := by
  rw [launch_reorder_supported out_buffer in_buffer batch_size num_heads max_length
    head_size chunk_size hchunk]
  constructor
  · intro b n c t hb hn hc ht
    exact reorder_cell out_buffer in_buffer batch_size num_heads max_length
      (head_size / chunk_size) b n c t hb hn hc ht
  · intro o ho
    have hX : 0 < batch_size * num_heads * max_length * (head_size / chunk_size) :=
      lt_of_le_of_lt (Nat.zero_le o) ho
    have hB : 0 < batch_size := by
      rcases Nat.eq_zero_or_pos batch_size with h | h
      · rw [h] at hX; simp at hX
      · exact h
    have hnh : 0 < num_heads := by
      rcases Nat.eq_zero_or_pos num_heads with h | h
      · rw [h] at hX; simp at hX
      · exact h
    have hmaxL : 0 < max_length := by
      rcases Nat.eq_zero_or_pos max_length with h | h
      · rw [h] at hX; simp at hX
      · exact h
    have hchs : 0 < head_size / chunk_size := by
      rcases Nat.eq_zero_or_pos (head_size / chunk_size) with h | h
      · rw [h] at hX; simp at hX
      · exact h
    have hbn : o / (head_size / chunk_size * max_length) < batch_size * num_heads := by
      rw [Nat.div_lt_iff_lt_mul (Nat.mul_pos hchs hmaxL)]
      have h7 : batch_size * num_heads * (head_size / chunk_size * max_length) =
          batch_size * num_heads * max_length * (head_size / chunk_size) := by ring
      linarith
    have hcell := reorder_cell out_buffer in_buffer batch_size num_heads max_length
      (head_size / chunk_size)
      (o / (head_size / chunk_size * max_length) / num_heads)
      (o / (head_size / chunk_size * max_length) % num_heads)
      (o % (head_size / chunk_size)) (o / (head_size / chunk_size) % max_length)
      (by rw [Nat.div_lt_iff_lt_mul hnh]; exact hbn)
      (Nat.mod_lt _ hnh) (Nat.mod_lt _ hchs) (Nat.mod_lt _ hmaxL)
    rw [Nat.div_add_mod' (o / (head_size / chunk_size * max_length)) num_heads] at hcell
    simp only [invAxisSwap]
    rw [hcell]
    congr 1
    conv_rhs => rw [recon2 o (head_size / chunk_size) max_length]
    ring

/-- Witness for C1 at a concrete instance with max_length = 17, not a
multiple of the sequence-tile height 16. -/
theorem reorderPastStates_swaps_axes_witness :
    ((4 = 4 ∨ 4 = 8) ∧ 4 ∣ 8 ∧ 8 / 4 ≤ kTileSize) ∧
      (ReorderPastStatesKernelLauncher (fun o => (0 : Int)) (fun o => (o : Int)) 1 1 17 8 4
          ((0 * 1 + 0) * 17 * (8 / 4) + 1 * 17 + 16) =
        (fun o => (o : Int)) ((0 * 1 + 0) * 17 * (8 / 4) + 16 * (8 / 4) + 1)) ∧
      (invAxisSwap
          (ReorderPastStatesKernelLauncher (fun o => (0 : Int)) (fun o => (o : Int)) 1 1 17 8 4)
          1 17 (8 / 4) 5 =
        (fun o => (o : Int)) 5) := by
  have h := reorderPastStates_swaps_axes (fun o => (0 : Int)) (fun o => (o : Int))
    1 1 17 8 4 (Or.inl rfl) (by decide) (by decide)
  exact ⟨⟨Or.inl rfl, by decide, by decide⟩,
    h.1 0 0 1 16 (by decide) (by decide) (by decide) (by decide),
    h.2 5 (by decide)⟩

/-- C4, code behaviour at the failing input: for the unsupported chunk width
3, the launcher performs no store and raises no error — the output buffer is
returned exactly as passed in, with no signal to the caller.  (The spec and
the claim require a loud precondition failure here instead.) -/
theorem reorderLauncher_silently_skips_unsupported_chunk :
    ∀ out_buffer in_buffer : Nat → Int,
      ReorderPastStatesKernelLauncher out_buffer in_buffer 1 1 16 12 3 = out_buffer := by
  intro out_buffer in_buffer
  unfold ReorderPastStatesKernelLauncher
  rw [if_neg (by omega)]

/-- Model of IEEE fp32 values as used by `HandleEOSArray`: the kernel only
compares (std::max), copies, and stores the constant
std::numeric_limits(float)::lowest(), so non-NaN floats embed
order-faithfully into the rationals with a bottom element for negative
infinity.  ⊥ models -inf. -/
abbrev FVal := WithBot ℚ

/-- The value std::numeric_limits(float)::lowest(): the most negative FINITE
fp32 value, -(2^128 - 2^104) = -(2 - 2^-23)·2^127, written as a numeral so
that concrete instances evaluate.  It is not negative infinity. -/
def floatLowest : FVal :=
  ((-340282346638528859811704183484516925440 : ℚ) : WithBot ℚ)

theorem floatLowest_eq_pow : floatLowest = ((-(2 ^ 128 - 2 ^ 104) : ℚ) : WithBot ℚ) := by
  norm_num [floatLowest]

/-- The for-loop of `HandleEOSArray` for one thread, acting on the running
(max, logits-buffer) state: iteration i reads logits[eos_token_ids[i]] into
the max accumulator and then overwrites that slot with lowest().  base is
the thread's row offset (index * vocab_size); eos ids are in-range
vocabulary indices (int32 in the source, Nat here). -/
def HandleEOSLoop (eos_token_ids : Nat → Nat) (base : Nat) :
    Nat → FVal × (Nat → FVal) → FVal × (Nat → FVal)
  | 0, st => st
  | i + 1, st =>
    let st1 := HandleEOSLoop eos_token_ids base i st
    (max st1.1 (st1.2 (base + eos_token_ids i)),
      Function.update st1.2 (base + eos_token_ids i) floatLowest)

/-- Body of `HandleEOSArray` for thread `index`: runs the loop from
max = lowest() over its row, then stores the accumulated max into the
primary slot eos_token_ids[0]. -/
def HandleEOSArrayBody (vocab_size : Nat) (eos_token_ids : Nat → Nat)
    (eos_token_ids_count index : Nat) (batch_logits : Nat → FVal) : Nat → FVal :=
  Function.update
    (HandleEOSLoop eos_token_ids (index * vocab_size) eos_token_ids_count
      (floatLowest, batch_logits)).2
    (index * vocab_size + eos_token_ids 0)
    (HandleEOSLoop eos_token_ids (index * vocab_size) eos_token_ids_count
      (floatLowest, batch_logits)).1

/-- Sequential execution of threads each transforming the whole buffer (the
rows touched by distinct threads are disjoint under the claim's in-range
hypotheses, so the order is irrelevant). -/
def foldThreads {σ : Type} (f : Nat → σ → σ) : Nat → σ → σ
  | 0, s => s
  | n + 1, s => f n (foldThreads f n s)

/-- Launcher `LaunchHandleEOSArray`: (batch_beam_size + 255)/256 blocks of
256 threads; thread `index` returns early unless index < batch_beam_size. -/
def LaunchHandleEOSArray (batch_logits : Nat → FVal)
    (batch_beam_size vocab_size : Nat) (eos_token_ids : Nat → Nat)
    (eos_token_ids_count : Nat) : Nat → FVal :=
  foldThreads
    (fun index buf =>
      if index < batch_beam_size then
        HandleEOSArrayBody vocab_size eos_token_ids eos_token_ids_count index buf
      else buf)
    (gridThreads256 batch_beam_size) batch_logits

/-- Spec-side definition: the maximum of the row's prior scores over all ids
in eos_ids (the claim's comparison point; ⊥ is the identity of max). -/
def rowEosMaxSpec (batch_logits : Nat → FVal) (base : Nat)
    (eos_token_ids : Nat → Nat) (eos_token_ids_count : Nat) : FVal :=
  (((List.range eos_token_ids_count).map
    fun i => batch_logits (base + eos_token_ids i)).foldr max ⊥)

theorem eosLoop_buf_frame (eos : Nat → Nat) (base n : Nat) (m : FVal)
    (buf : Nat → FVal) (o : Nat) (h : ∀ i, i < n → o ≠ base + eos i) :
    (HandleEOSLoop eos base n (m, buf)).2 o = buf o := by
  induction n generalizing m buf with
  | zero => rfl
  | succ k ih =>
    simp only [HandleEOSLoop]
    rw [Function.update_noteq (h k (Nat.lt_succ_self k))]
    exact ih m buf (fun i hi => h i (Nat.lt_succ_of_lt hi))

theorem eosLoop_buf_hit (eos : Nat → Nat) (base : Nat) (m : FVal)
    (buf : Nat → FVal) (o k : Nat) :
    ∀ n, k < n → o = base + eos k →
      (HandleEOSLoop eos base n (m, buf)).2 o = floatLowest := by
  intro n
  induction n with
  | zero => omega
  | succ j ih =>
    intro hk ho
    simp only [HandleEOSLoop]
    by_cases hoj : o = base + eos j
    · rw [hoj, Function.update_same]
    · rw [Function.update_noteq hoj]
      have hkj : k < j := by
        rcases Nat.lt_succ_iff_lt_or_eq.mp hk with h | h
        · exact h
        · exact absurd (h ▸ ho) hoj
      exact ih hkj ho

theorem eosLoop_max_acc (eos : Nat → Nat) (base count : Nat)
    (huniq : ∀ i j, i < count → j < count → i ≠ j → eos i ≠ eos j) :
    ∀ n, n ≤ count → ∀ (m : FVal) (buf : Nat → FVal),
      (HandleEOSLoop eos base n (m, buf)).1 =
        ((List.range n).map fun i => buf (base + eos i)).foldl max m := by
  intro n
  induction n with
  | zero => intro _ m buf; rfl
  | succ k ih =>
    intro hn m buf
    simp only [HandleEOSLoop]
    have hread : (HandleEOSLoop eos base k (m, buf)).2 (base + eos k) =
        buf (base + eos k) := by
      apply eosLoop_buf_frame
      intro i hi hEq
      have : eos k ≠ eos i := huniq k i (by omega) (by omega) (by omega)
      omega
    rw [hread, ih (by omega) m buf]
    rw [List.range_succ, List.map_append, List.foldl_append]
    rfl

theorem foldl_max_eq_max_foldr (l : List FVal) (m : FVal) :
    l.foldl max m = max m (l.foldr max ⊥) := by
  induction l generalizing m with
  | nil => simp
  | cons x t ih =>
    simp only [List.foldl_cons, List.foldr_cons]
    rw [ih (max m x), max_assoc]

theorem le_foldr_max (l : List FVal) (x : FVal) (hx : x ∈ l) :
    x ≤ l.foldr max ⊥ := by
  induction l with
  | nil => exact absurd hx (List.not_mem_nil x)
  | cons y t ih =>
    simp only [List.foldr_cons]
    rcases List.mem_cons.mp hx with h | h
    · rw [h]; exact le_max_left _ _
    · exact le_trans (ih h) (le_max_right _ _)

theorem handleEOSBody_primary (V : Nat) (eos : Nat → Nat) (count r : Nat)
    (buf : Nat → FVal)
    (huniq : ∀ i j, i < count → j < count → i ≠ j → eos i ≠ eos j) :
    HandleEOSArrayBody V eos count r buf (r * V + eos 0) =
      ((List.range count).map fun i => buf (r * V + eos i)).foldl max floatLowest := by
  unfold HandleEOSArrayBody
  rw [Function.update_same]
  exact eosLoop_max_acc eos (r * V) count huniq count (Nat.le_refl count) floatLowest buf

theorem handleEOSBody_nonprimary (V : Nat) (eos : Nat → Nat) (count r i : Nat)
    (buf : Nat → FVal) (hi : i < count) (hne : eos i ≠ eos 0) :
    HandleEOSArrayBody V eos count r buf (r * V + eos i) = floatLowest := by
  unfold HandleEOSArrayBody
  rw [Function.update_noteq (by omega)]
  exact eosLoop_buf_hit eos (r * V) floatLowest buf (r * V + eos i) i count hi rfl

theorem handleEOSBody_frame (V : Nat) (eos : Nat → Nat) (count q : Nat)
    (buf : Nat → FVal) (o : Nat) (h0 : o ≠ q * V + eos 0)
    (h : ∀ i, i < count → o ≠ q * V + eos i) :
    HandleEOSArrayBody V eos count q buf o = buf o := by
  unfold HandleEOSArrayBody
  rw [Function.update_noteq h0]
  exact eosLoop_buf_frame eos (q * V) count floatLowest buf o h

theorem launchEOS_fold_frame (bbs V : Nat) (eos : Nat → Nat) (count : Nat)
    (hin : ∀ i, i < count → eos i < V) (hcount : 0 < count)
    (r j : Nat) (hj : j < V) :
    ∀ n, (∀ q, q < n → q ≠ r) → ∀ buf : Nat → FVal,
      foldThreads
          (fun index buf2 =>
            if index < bbs then HandleEOSArrayBody V eos count index buf2 else buf2)
          n buf (r * V + j) = buf (r * V + j) := by
  intro n
  induction n with
  | zero => intro _ buf; rfl
  | succ m ih =>
    intro hq buf
    simp only [foldThreads]
    by_cases hmb : m < bbs
    · rw [if_pos hmb, handleEOSBody_frame]
      · exact ih (fun q hq2 => hq q (Nat.lt_succ_of_lt hq2)) buf
      · intro hEq
        obtain ⟨hrm, h2⟩ := encode_inj hj (hin 0 hcount) hEq
        exact hq m (Nat.lt_succ_self m) hrm.symm
      · intro i hi hEq
        obtain ⟨hrm, h2⟩ := encode_inj hj (hin i hi) hEq
        exact hq m (Nat.lt_succ_self m) hrm.symm
    · rw [if_neg hmb]
      exact ih (fun q hq2 => hq q (Nat.lt_succ_of_lt hq2)) buf

theorem launchEOS_fold_primary (bbs V : Nat) (eos : Nat → Nat) (count : Nat)
    (hin : ∀ i, i < count → eos i < V) (hcount : 0 < count)
    (huniq : ∀ i j, i < count → j < count → i ≠ j → eos i ≠ eos j)
    (r : Nat) (hr : r < bbs) (logits : Nat → FVal) :
    ∀ n, r < n →
      foldThreads
          (fun index buf2 =>
            if index < bbs then HandleEOSArrayBody V eos count index buf2 else buf2)
          n logits (r * V + eos 0) =
        ((List.range count).map fun i => logits (r * V + eos i)).foldl max floatLowest := by
  intro n
  induction n with
  | zero => omega
  | succ m ih =>
    intro hrn
    simp only [foldThreads]
    by_cases hrm : r = m
    · subst hrm
      rw [if_pos hr, handleEOSBody_primary V eos count r _ huniq]
      congr 1
      apply List.map_congr_left
      intro i hmem
      have hi : i < count := List.mem_range.mp hmem
      exact launchEOS_fold_frame bbs V eos count hin hcount r (eos i) (hin i hi) r
        (fun q hq => by omega) logits
    · have hrm2 : r < m := by omega
      by_cases hmb : m < bbs
      · rw [if_pos hmb, handleEOSBody_frame]
        · exact ih hrm2
        · intro hEq
          obtain ⟨h1, h2⟩ := encode_inj (hin 0 hcount) (hin 0 hcount) hEq
          exact hrm h1
        · intro i hi hEq
          obtain ⟨h1, h2⟩ := encode_inj (hin 0 hcount) (hin i hi) hEq
          exact hrm h1
      · rw [if_neg hmb]
        exact ih hrm2

theorem launchEOS_fold_nonprimary (bbs V : Nat) (eos : Nat → Nat) (count : Nat)
    (hin : ∀ i, i < count → eos i < V) (hcount : 0 < count)
    (r : Nat) (hr : r < bbs) (logits : Nat → FVal) (i : Nat)
    (hi : i < count) (hne : eos i ≠ eos 0) :
    ∀ n, r < n →
      foldThreads
          (fun index buf2 =>
            if index < bbs then HandleEOSArrayBody V eos count index buf2 else buf2)
          n logits (r * V + eos i) = floatLowest := by
  intro n
  induction n with
  | zero => omega
  | succ m ih =>
    intro hrn
    simp only [foldThreads]
    by_cases hrm : r = m
    · subst hrm
      rw [if_pos hr]
      exact handleEOSBody_nonprimary V eos count r i _ hi hne
    · have hrm2 : r < m := by omega
      by_cases hmb : m < bbs
      · rw [if_pos hmb, handleEOSBody_frame]
        · exact ih hrm2
        · intro hEq
          obtain ⟨h1, h2⟩ := encode_inj (hin i hi) (hin 0 hcount) hEq
          exact hrm h1
        · intro i2 hi2 hEq
          obtain ⟨h1, h2⟩ := encode_inj (hin i hi) (hin i2 hi2) hEq
          exact hrm h1
      · rw [if_neg hmb]
        exact ih hrm2

/-- C3 (amended): for every in-range row, with a non-empty set of unique
in-range eos ids whose prior scores are at least the lowest finite float,
the merge writes the row's maximum prior eos score into the primary slot
eos_ids[0], and every non-primary eos slot receives
std::numeric_limits(float)::lowest() — the most negative FINITE float, not
negative infinity (equally unselectable among finite scores). -/
theorem handleEOSArray_merges (batch_logits : Nat → FVal) (bbs V : Nat)
    (eos : Nat → Nat) (count r : Nat) (hr : r < bbs) (hcount : 0 < count)
    (hin : ∀ i, i < count → eos i < V)
    (huniq : ∀ i, i < count → ∀ j, j < count → i ≠ j → eos i ≠ eos j)
    (hfin : ∀ i, i < count → floatLowest ≤ batch_logits (r * V + eos i)) :
    LaunchHandleEOSArray batch_logits bbs V eos count (r * V + eos 0) =
      rowEosMaxSpec batch_logits (r * V) eos count ∧
    ∀ i, i < count → eos i ≠ eos 0 →
      LaunchHandleEOSArray batch_logits bbs V eos count (r * V + eos i) =
        floatLowest := by
  have hrg : r < gridThreads256 bbs := lt_of_lt_of_le hr (le_gridThreads256 bbs)
  have huniq2 : ∀ i j, i < count → j < count → i ≠ j → eos i ≠ eos j :=
    fun i j hi hj => huniq i hi j hj
  constructor
  · unfold LaunchHandleEOSArray
    rw [launchEOS_fold_primary bbs V eos count hin hcount huniq2 r hr batch_logits _ hrg]
    rw [foldl_max_eq_max_foldr]
    unfold rowEosMaxSpec
    apply max_eq_right
    have hmem : batch_logits (r * V + eos 0) ∈
        (List.range count).map fun i => batch_logits (r * V + eos i) :=
      List.mem_map_of_mem _ (List.mem_range.mpr hcount)
    exact le_trans (hfin 0 hcount) (le_foldr_max _ _ hmem)
  · intro i hi hne
    unfold LaunchHandleEOSArray
    exact launchEOS_fold_nonprimary bbs V eos count hin hcount r hr batch_logits
      i hi hne _ hrg

/-- Concrete logits row for the C3 counterexample: logits[7] = 2.0,
logits[9] = 5.0, all other slots 0. -/
def exLogits : Nat → FVal := fun o =>
  if o = 7 then ((2 : ℚ) : WithBot ℚ)
  else if o = 9 then ((5 : ℚ) : WithBot ℚ)
  else ((0 : ℚ) : WithBot ℚ)

/-- Concrete eos id buffer for the C3 counterexample: eos_ids = [7, 9]. -/
def exEosIds : Nat → Nat := fun i => if i = 0 then 7 else 9

set_option maxRecDepth 100000 in
/-- C3 counterexample: with eos_ids = [7,9], logits[7] = 2.0 and
logits[9] = 5.0, after the merge the non-primary slot 9 holds
std::numeric_limits(float)::lowest(), a FINITE value, not negative infinity
as the claim states; the primary slot 7 does hold 5.0. -/
theorem handleEOSArray_counterexample :
    LaunchHandleEOSArray exLogits 1 10 exEosIds 2 9 = floatLowest ∧
    floatLowest ≠ (⊥ : FVal) ∧
    LaunchHandleEOSArray exLogits 1 10 exEosIds 2 7 = ((5 : ℚ) : WithBot ℚ) := by
  refine ⟨?_, ?_, ?_⟩ <;> decide

/-- Witness for C3 (amended) at a concrete instance. -/
theorem handleEOSArray_merges_witness :
    (0 < 1 ∧ 0 < 2) ∧
      (LaunchHandleEOSArray exLogits 1 10 exEosIds 2 (0 * 10 + exEosIds 0) =
          rowEosMaxSpec exLogits (0 * 10) exEosIds 2 ∧
        LaunchHandleEOSArray exLogits 1 10 exEosIds 2 (0 * 10 + exEosIds 1) =
          floatLowest) := by
  have h := handleEOSArray_merges exLogits 1 10 exEosIds 2 0 (by decide) (by decide)
    (by decide) (by decide) (by decide)
  exact ⟨⟨by decide, by decide⟩, h.1, h.2 1 (by decide) (by decide)⟩

end Generators.cuda
